import Mathlib

/-!
Verification development for a batch image-enrichment pipeline: a relational
store is scanned for rows with an empty `image_url`, a text prompt is built
from each row's fields, an image is requested from an external provider with
retry/backoff, the image is pushed to a remote host, and the resulting path is
written back to the row.

The embedding below is a shallow model of the Python sources:
  * `_sanitize_value`, `generate_prompt_from_row`  — db_reader.py
  * `generate_image`, `generate_and_save`          — image_generator.py
  * `process_table` and its per-row pipeline       — main.py
  * the static table configuration                 — config.py
Strings are modelled as `List Char`; external collaborators (provider, remote
host, database writes) are modelled as oracle functions, and the embedding is
instrumented to also return the list of collaborator calls made and the
per-row outcome log, so that "no network call happens" and "the recorded
failure reason is R" are stateable.
-/

set_option maxRecDepth 65536

/-- Strings are modelled as lists of characters (Python `str`). -/
abbrev Str := List Char

/-- Turn a Lean string literal into the model's string type. -/
def lit (s : String) : Str := s.toList

/-- A Python value as it can occur in a database row: `None`, `str`, `int`
(which in Python includes `bool`, modelled separately), or `bool`.
`float` does not occur in the claims and is omitted. -/
inductive PyVal where
  | vNone
  | vStr (s : Str)
  | vInt (n : Int)
  | vBool (b : Bool)
deriving DecidableEq, Repr

/-- Python truthiness: `None`, `''`, `0` and `False` are falsy. -/
def pyTruthy : PyVal → Bool
  | .vNone => false
  | .vStr s => !s.isEmpty
  | .vInt n => n != 0
  | .vBool b => b

/-- Decimal digits of a natural number (Python `str(n)` for `n ≥ 0`). -/
def natStr (n : Nat) : Str := Nat.toDigits 10 n

/-- Python `str(n)` for an integer. -/
def intStr (n : Int) : Str :=
  if n < 0 then '-' :: natStr ((-n).toNat) else natStr n.toNat

/-- Python `str(value)` for the modelled value universe. -/
def pyStr : PyVal → Str
  | .vNone => lit "None"
  | .vStr s => s
  | .vInt n => intStr n
  | .vBool b => if b then lit "True" else lit "False"

/-- ASCII lower-casing of one character (Python `str.lower` restricted to
ASCII; every character the claims exercise through `.lower()` is ASCII). -/
def asciiLower (c : Char) : Char :=
  if 'A' ≤ c ∧ c ≤ 'Z' then Char.ofNat (c.toNat + 32) else c

/-- ASCII upper-casing of one character. -/
def asciiUpper (c : Char) : Char :=
  if 'a' ≤ c ∧ c ≤ 'z' then Char.ofNat (c.toNat - 32) else c

/-- Python `str.lower()` (ASCII model). -/
def pyLower (s : Str) : Str := s.map asciiLower

/-- A character is "cased" in the sense of CPython's `str.title`:
an ASCII letter.  Digits, punctuation and Hangul are uncased, which matches
CPython (Hangul has no case), so `str.title` word boundaries are modelled
faithfully for the data this program sees. -/
def asciiCased (c : Char) : Bool :=
  ('a' ≤ c ∧ c ≤ 'z') ∨ ('A' ≤ c ∧ c ≤ 'Z')

/-- Worker for `pyTitle`: the boolean records whether the previous character
was cased. -/
def pyTitleGo : Bool → Str → Str
  | _, [] => []
  | prev, c :: rest =>
    if asciiCased c then
      (if prev then asciiLower c else asciiUpper c) :: pyTitleGo true rest
    else c :: pyTitleGo false rest

/-- Python `str.title()`: capitalise the first cased character of every run of
cased characters, lower-case the rest. -/
def pyTitle (s : Str) : Str := pyTitleGo false s

/-!
### Python `str.replace`

`s.replace(old, new)` scans left to right and substitutes non-overlapping
occurrences of `old`.  `pyRepAux` is structurally recursive on the string (so
it evaluates inside the kernel); the `Nat` argument counts characters of an
already-substituted occurrence that remain to be skipped.  For the empty
pattern Python would interleave `new` everywhere; the sources only replace
nonempty patterns, and the guard makes the empty pattern a no-op instead.
-/
def pyRepAux (old new : Str) : Nat → Str → Str
  | _, [] => []
  | k + 1, _ :: rest => pyRepAux old new k rest
  | 0, c :: rest =>
    if old ≠ [] ∧ old <+: (c :: rest) then
      new ++ pyRepAux old new (old.length - 1) rest
    else c :: pyRepAux old new 0 rest

/-- Python `s.replace(old, new)` for nonempty `old`. -/
def pyReplace (old new s : Str) : Str := pyRepAux old new 0 s

/-- `_sanitize_value` (db_reader.py): the fixed substitution pass, applied in
the dictionary's insertion order.  The code's early return for a falsy value
returns the value unchanged, which coincides with running the passes on `[]`,
so no separate branch is modelled. -/
def _sanitize_value (s : Str) : Str :=
  pyReplace (lit "Sexy Elegant") (lit "Elegant and Sophisticated")
    (pyReplace (lit "SEXY_ELEGANT") (lit "Elegant and Sophisticated")
      (pyReplace (lit "sexy") (lit "sophisticated")
        (pyReplace (lit "SEXY") (lit "Sophisticated") s)))

/-- All characters below code point 128 (the `all(ord(char) < 128 ...)`
guard on the `color` and `shape` fields). -/
def allAscii (s : Str) : Bool := s.all (fun c => c.toNat < 128)

/-- `isinstance(value, (int, float)) and value > 0`: in Python `bool` is a
subclass of `int` (`True == 1`), so `True` passes this test. -/
def posNumeric : PyVal → Bool
  | .vInt n => 0 < n
  | .vBool b => b
  | _ => false

/-- `int(value)` for the values that pass `posNumeric`. -/
def pyToInt : PyVal → Int
  | .vInt n => n
  | .vBool b => if b then 1 else 0
  | _ => 0

/-- Static per-table configuration (config.py `DB_TABLES` entries). -/
structure TableConfig where
  table_name : Str
  prompt_fields : List Str
  prompt_template : Str

/-- A database row: field name to value.  A missing key reads as `None`
(Python `dict.get`). -/
abbrev Record := List (Str × PyVal)

/-- The opening boilerplate sentence chosen by the template identifier
(an unknown template contributes nothing: the `if/elif` chain has no
`else`). -/
def openingParts (template : Str) : List Str :=
  if template = lit "wedding_dress" then
    [lit "A professional product photograph of a beautiful wedding dress on a display."]
  else if template = lit "wedding_dress_shop" then
    [lit "A professional photograph of a wedding dress shop interior."]
  else if template = lit "wedding_hall" then
    [lit "A professional photograph of a wedding venue."]
  else if template = lit "makeup_shop" then
    [lit "A professional photograph of a wedding makeup salon interior."]
  else []

/-- The fixed closing quality sentence appended to every prompt. -/
def closingSentence : Str :=
  lit "High quality, professional, bright lighting, elegant atmosphere."

/-- The sanitization applied before field dispatch: string values go through
`_sanitize_value`, other values are untouched (`isinstance(value, str)`
guard). -/
def sanitizeVal : PyVal → PyVal
  | .vStr s => PyVal.vStr (_sanitize_value s)
  | x => x

/-- `value.replace('_',' ').title()` — the underscore-to-space, title-cased
rendering used for `venue_type`, `type`, `mood` and `neck_line`. -/
def titleCased (s : Str) : Str := pyTitle (pyReplace (lit "_") (lit " ") s)

/-- Rendering of a "label-format" field (`venue_type`/`type`/`mood`/
`neck_line` use the title-cased value, `fabric` the raw value — selected by
`applyTitle`). -/
def labelFragment (label : Str) (applyTitle : Bool) (sv : PyVal) : Option Str :=
  match sv with
  | .vStr s => some (label ++ (if applyTitle then titleCased s else s) ++ lit ".")
  | _ => none

/-- Rendering of an ASCII-only field (`color`, `shape`): only a nonempty
value all of whose characters are below code point 128 is emitted. -/
def asciiOnlyFragment (label : Str) (sv : PyVal) : Option Str :=
  match sv with
  | .vStr s => if !s.isEmpty && allAscii s then some (label ++ s ++ lit ".") else none
  | _ => none

/-- The `parking` branch: a positive number (Python's `isinstance` test
admits `bool`) yields the capacity sentence; otherwise a truthy string form
yields the generic sentence; otherwise nothing. -/
def parkingFragment (sv : PyVal) : Option Str :=
  if posNumeric sv then
    some (lit "Parking available for " ++ intStr (pyToInt sv) ++ lit " cars.")
  else if pyLower (pyStr sv) ∈ [lit "true", lit "yes", lit "1"] then
    some (lit "With parking available.")
  else none

/-- The body of the per-field `elif` chain in `generate_prompt_from_row`:
given a field name and the row's value for it, the sentence fragment the field
contributes, if any.  String values are sanitized first, exactly as in the
code.  Branches that apply `str` operations (`replace`/`title`/iteration) to a
non-string value would raise in Python; the model renders nothing there, and
no claim exercises those inputs. -/
def fieldFragment (field : Str) (v : PyVal) : Option Str :=
  if !pyTruthy v then none else
  if field = lit "shop_name" ∨ field = lit "name" then none
  else if field = lit "description" then none
  else if field = lit "features" then none
  else if field = lit "specialty" then none
  else if field = lit "venue_type" then labelFragment (lit "Venue type: ") true (sanitizeVal v)
  else if field = lit "type" then labelFragment (lit "Style: ") true (sanitizeVal v)
  else if field = lit "color" then asciiOnlyFragment (lit "Color: ") (sanitizeVal v)
  else if field = lit "shape" then asciiOnlyFragment (lit "Silhouette: ") (sanitizeVal v)
  else if field = lit "mood" then labelFragment (lit "Mood: ") true (sanitizeVal v)
  else if field = lit "neck_line" then labelFragment (lit "Neckline: ") true (sanitizeVal v)
  else if field = lit "fabric" then labelFragment (lit "Fabric: ") false (sanitizeVal v)
  else if field = lit "parking" then parkingFragment (sanitizeVal v)
  else none

/-- The classification of the `parking` field stated by the spec, written
from the spec's words over the raw field value: a positive numeric value
(Python numbers include `bool`: `True == 1`) yields the capacity sentence; a
value whose string form is `true`/`yes`/`1` case-insensitively and which is
not a positive number yields the generic availability sentence; every other
value yields nothing. -/
def parkingClaimSpec (v : PyVal) : Option Str :=
  if posNumeric v then
    some (lit "Parking available for " ++ intStr (pyToInt v) ++ lit " cars.")
  else if pyLower (pyStr v) ∈ [lit "true", lit "yes", lit "1"] then
    some (lit "With parking available.")
  else none

/-- `generate_prompt_from_row` (db_reader.py): opening sentence chosen by the
template, one optional fragment per configured field in declared order, fixed
closing sentence, all joined with single spaces. -/
def generate_prompt_from_row (cfg : TableConfig) (row : Record) : Str :=
  List.intercalate (lit " ")
    (openingParts cfg.prompt_template
      ++ cfg.prompt_fields.filterMap
           (fun f => fieldFragment f ((List.lookup f row).getD PyVal.vNone))
      ++ [closingSentence])

/-- config.py `DB_TABLES['tb_dress']`. -/
def tb_dress : TableConfig :=
  { table_name := lit "tb_dress"
    prompt_fields := [lit "name", lit "type", lit "color", lit "shape", lit "mood",
      lit "neck_line", lit "fabric", lit "features"]
    prompt_template := lit "wedding_dress" }

/-- config.py `DB_TABLES['tb_dress_shop']`. -/
def tb_dress_shop : TableConfig :=
  { table_name := lit "tb_dress_shop"
    prompt_fields := [lit "shop_name", lit "description", lit "features", lit "specialty"]
    prompt_template := lit "wedding_dress_shop" }

/-- config.py `DB_TABLES['tb_wedding_hall']`. -/
def tb_wedding_hall : TableConfig :=
  { table_name := lit "tb_wedding_hall"
    prompt_fields := [lit "name", lit "venue_type", lit "parking"]
    prompt_template := lit "wedding_hall" }

/-- config.py `DB_TABLES['tb_makeup_shop']`. -/
def tb_makeup_shop : TableConfig :=
  { table_name := lit "tb_makeup_shop"
    prompt_fields := [lit "shop_name", lit "description", lit "features", lit "specialty"]
    prompt_template := lit "makeup_shop" }

/-!
### Image generator (image_generator.py)

`generate_image` loops `for attempt in range(max_retries)`, returns the
provider URL on success, sleeps `2 ** attempt` seconds after a failed attempt
that is not the last, and returns `None` (not an exception) once all attempts
failed.  The provider is an oracle from the attempt index to an optional URL.
The embedding returns `(result, number of provider calls made, total seconds
slept)`.
-/
def genAttempts (provider : Nat → Option Str) : Nat → Nat → Option Str × Nat × Nat
  | _, 0 => (none, 0, 0)
  | i, 1 =>
    match provider i with
    | some url => (some url, 1, 0)
    | none => (none, 1, 0)
  | i, r + 2 =>
    match provider i with
    | some url => (some url, 1, 0)
    | none =>
      match genAttempts provider (i + 1) (r + 1) with
      | (res, a, w) => (res, a + 1, w + 2 ^ i)

/-- Python's `max_retries or config.MAX_RETRIES`: `None` and `0` fall back to
the configured default. -/
def pyOrNat (given : Option Nat) (dflt : Nat) : Nat :=
  match given with
  | none => dflt
  | some 0 => dflt
  | some (k + 1) => k + 1

/-- `generate_image` retry core: run up to the effective `max_retries`
attempts starting at attempt index 0. -/
def generate_image (provider : Nat → Option Str) (max_retries : Option Nat)
    (defaultRetries : Nat) : Option Str × Nat × Nat :=
  genAttempts provider 0 (pyOrNat max_retries defaultRetries)

/-- `generate_image`'s size validation: an unsupported size is coerced to
`512x512`. -/
def validateSize (size : Str) : Str :=
  if size ∈ [lit "256x256", lit "512x512", lit "1024x1024"] then size else lit "512x512"

/-- A provider stub that fails its first `n` calls and succeeds from call
`n + 1` on (attempt indices are 0-based). -/
def stubProvider (n : Nat) (url : Str) : Nat → Option Str :=
  fun k => if k < n then none else some url

/-!
### Orchestrator (main.py `process_table`)

External collaborators become oracles; each run also returns the list of
collaborator calls (`Event`s) and the per-row outcome log that the code
accumulates in `self.results`.  `save` models whether `download_image`
succeeded in writing `<filename>.png`; `upload_file` first checks that the
local file exists and returns `None` without contacting the host when it does
not (the model assumes a fresh output directory, so the file exists exactly
when the download succeeded).
-/
structure Oracles where
  gen : Str → Str → Option Str
  save : Str → Str → Bool
  upload : Str → Str → Option Str
  updateDb : PyVal → Str → Bool

/-- One collaborator call, in order of occurrence. -/
inductive Event where
  | genCall (filename : Str)
  | downloadCall (filename : Str)
  | uploadCall (filename : Str)
  | updateCall (rowId : Str)
deriving DecidableEq, Repr

/-- The outcome recorded for one processed row. -/
inductive RowOutcome where
  | ok (serverPath : Str)
  | failed (reason : Str)
deriving DecidableEq, Repr

/-- The counts `process_table` returns. -/
structure Counts where
  success : Nat
  failed : Nat
  skipped : Nat
deriving DecidableEq, Repr

/-- Result of one `process_table` call: the returned counts, the collaborator
calls made, and the per-row outcome log. -/
structure RunResult where
  counts : Counts
  events : List Event
  log : List (PyVal × RowOutcome)
deriving DecidableEq, Repr

/-- `generate_and_save` (image_generator.py): generate, then download; the
download's result is IGNORED and the provider URL is returned whenever
generation succeeded.  The second component records whether the local file
was written. -/
def generate_and_save (o : Oracles) (prompt filename : Str) : Option Str × Bool :=
  match o.gen prompt filename with
  | none => (none, false)
  | some url => (some url, o.save url filename)

/-- `row.get('id', f'row_{i}')` with `i` the 1-based loop index. -/
def rowIdOf (row : Record) (i : Nat) : PyVal :=
  (List.lookup (lit "id") row).getD (PyVal.vStr (lit "row_" ++ natStr i))

/-- `f"{table_name}_{row_id}"`. -/
def rowFilename (cfg : TableConfig) (row : Record) (i : Nat) : Str :=
  cfg.table_name ++ lit "_" ++ pyStr (rowIdOf row i)

/-- The live-mode per-row pipeline of `process_table`: generate-and-save,
upload, write back; the first failing stage records its reason and the row is
done.  `upload_file` is reached whenever generation succeeded, but returns
`None` before any transfer when the local file is missing. -/
def processRow (cfg : TableConfig) (o : Oracles) (i : Nat) (row : Record) :
    RowOutcome × List Event :=
  match generate_and_save o (generate_prompt_from_row cfg row) (rowFilename cfg row i) with
  | (none, _) =>
    (RowOutcome.failed (lit "image_generation_failed"), [Event.genCall (rowFilename cfg row i)])
  | (some _, saved) =>
    match (if saved then o.upload cfg.table_name (rowFilename cfg row i) else none) with
    | none =>
      (RowOutcome.failed (lit "server_upload_failed"),
        [Event.genCall (rowFilename cfg row i), Event.downloadCall (rowFilename cfg row i),
          Event.uploadCall (rowFilename cfg row i)])
    | some serverPath =>
      if o.updateDb (rowIdOf row i) serverPath then
        (RowOutcome.ok serverPath,
          [Event.genCall (rowFilename cfg row i), Event.downloadCall (rowFilename cfg row i),
            Event.uploadCall (rowFilename cfg row i), Event.updateCall (pyStr (rowIdOf row i))])
      else
        (RowOutcome.failed (lit "db_update_failed"),
          [Event.genCall (rowFilename cfg row i), Event.downloadCall (rowFilename cfg row i),
            Event.uploadCall (rowFilename cfg row i), Event.updateCall (pyStr (rowIdOf row i))])

/-- Run the live loop over the selected rows (`i` is the 1-based index of the
first row in the enumeration). -/
def runRows (cfg : TableConfig) (o : Oracles) : Nat → List Record → RunResult
  | _, [] => ⟨⟨0, 0, 0⟩, [], []⟩
  | i, row :: rest =>
    match processRow cfg o i row, runRows cfg o (i + 1) rest with
    | (out, evs), r =>
      { counts :=
          match out with
          | .ok _ => ⟨r.counts.success + 1, r.counts.failed, r.counts.skipped⟩
          | .failed _ => ⟨r.counts.success, r.counts.failed + 1, r.counts.skipped⟩
        events := evs ++ r.events
        log := (rowIdOf row i, out) :: r.log }

/-- Python `rows[:n]` for an `int` `n` (negative `n` drops from the end). -/
def pySlice (l : List Record) (n : Int) : List Record :=
  if 0 ≤ n then l.take n.toNat else l.take (l.length - (-n).toNat)

/-- `empty_rows[:limit] if limit else empty_rows`: a `None` or `0` limit is
falsy, so all rows are selected. -/
def applyLimit (rows : List Record) (limit : Option Int) : List Record :=
  match limit with
  | none => rows
  | some n => if n = 0 then rows else pySlice rows n

/-- `process_table` (main.py): fetch candidates (passed in as `rows`), return
zero counts when there are none, apply the limit, and either preview
(dry-run: prompts only, `skipped = total found`, no collaborator calls) or
run the live per-row pipeline (`skipped = found - selected`). -/
def process_table (cfg : TableConfig) (rows : List Record) (limit : Option Int)
    (dry_run : Bool) (o : Oracles) : RunResult :=
  if rows = [] then ⟨⟨0, 0, 0⟩, [], []⟩
  else
    if dry_run then ⟨⟨0, 0, rows.length⟩, [], []⟩
    else
      match runRows cfg o 1 (applyLimit rows limit) with
      | r => ⟨⟨r.counts.success, r.counts.failed, rows.length - (applyLimit rows limit).length⟩,
              r.events, r.log⟩

/-- The end-to-end scenario record: `{id:7, type:"a_line", color:"Ivory",
mood:"romantic"}`. -/
def dressRecord7 : Record :=
  [(lit "id", PyVal.vInt 7), (lit "type", PyVal.vStr (lit "a_line")),
    (lit "color", PyVal.vStr (lit "Ivory")), (lit "mood", PyVal.vStr (lit "romantic"))]

/-- Oracles for runs where no collaborator result matters (every call
fails). -/
def oracleAllFail : Oracles :=
  ⟨fun _ _ => none, fun _ _ => false, fun _ _ => none, fun _ _ => false⟩

/-- Oracles for the save-failure scenario: the provider succeeds, writing the
local file fails, every later stage would succeed if reached. -/
def oracleSaveFails : Oracles :=
  { gen := fun _ _ => some (lit "http-img-url")
    save := fun _ _ => false
    upload := fun _ _ => some (lit "/images/x.png")
    updateDb := fun _ _ => true }

/-- Five one-field candidate records, for the limit scenario. -/
def rows5 : List Record :=
  [[(lit "id", PyVal.vInt 1)], [(lit "id", PyVal.vInt 2)], [(lit "id", PyVal.vInt 3)],
    [(lit "id", PyVal.vInt 4)], [(lit "id", PyVal.vInt 5)]]

/-!
## Lemmas

First the unfolding equations for `pyReplace`, then the pipeline-counting
lemmas, then the claim theorems.
-/

lemma pyRepAux_skip (old new : Str) : ∀ (k : Nat) (s : Str),
    pyRepAux old new k s = pyRepAux old new 0 (s.drop k) := by
  intro k s
  induction s generalizing k with
  | nil => cases k <;> rfl
  | cons c rest ih =>
    cases k with
    | zero => rfl
    | succ k =>
      show pyRepAux old new k rest = pyRepAux old new 0 ((c :: rest).drop (k + 1))
      rw [List.drop_succ_cons]
      exact ih k

lemma pyReplace_nil (old new : Str) : pyReplace old new [] = [] := rfl

lemma pyReplace_cons (old new : Str) (c : Char) (rest : Str) :
    pyReplace old new (c :: rest)
      = if old ≠ [] ∧ old <+: (c :: rest) then
          new ++ pyReplace old new ((c :: rest).drop old.length)
        else c :: pyReplace old new rest := by
  show pyRepAux old new 0 (c :: rest) = _
  rw [pyRepAux]
  split
  · rename_i h
    have hpos : 0 < old.length := List.length_pos.mpr h.1
    have hlen : old.length - 1 + 1 = old.length := Nat.succ_pred_eq_of_pos hpos
    rw [pyRepAux_skip]
    show _ ++ pyRepAux old new 0 (rest.drop (old.length - 1)) = _
    have hdrop : (c :: rest).drop old.length = rest.drop (old.length - 1) := by
      conv_lhs => rw [← hlen]
      exact List.drop_succ_cons ..
    rw [hdrop]
    rfl
  · rfl

lemma runRows_counts (cfg : TableConfig) (o : Oracles) : ∀ (l : List Record) (i : Nat),
    (runRows cfg o i l).counts.success + (runRows cfg o i l).counts.failed = l.length
    ∧ (runRows cfg o i l).counts.skipped = 0 := by
  intro l
  induction l with
  | nil => intro i; simp [runRows]
  | cons r rest ih =>
    intro i
    rcases h : processRow cfg o i r with ⟨out, evs⟩
    have := ih (i + 1)
    rcases out <;> simp [runRows, h] <;> omega

lemma applyLimit_nil (limit : Option Int) : applyLimit [] limit = [] := by
  rcases limit with _ | n
  · rfl
  · show (if n = 0 then ([] : List Record) else pySlice [] n) = []
    split
    · rfl
    · unfold pySlice
      split <;> simp

lemma applyLimit_len_le (rows : List Record) (limit : Option Int) :
    (applyLimit rows limit).length ≤ rows.length := by
  rcases limit with _ | n
  · exact le_refl _
  · show (if n = 0 then rows else pySlice rows n).length ≤ rows.length
    split
    · exact le_refl _
    · show (pySlice rows n).length ≤ rows.length
      unfold pySlice
      split <;> simp [List.length_take]

/-- C1: for a nonempty candidate list, a dry run makes no synthesizer,
publisher, download, or write-back call (the event list is empty), and
returns `success = 0`, `failed = 0` and `skipped` equal to the total number
of candidate records found, whatever the limit. -/
theorem spec_c1 (cfg : TableConfig) (r : Record) (rest : List Record)
    (limit : Option Int) (o : Oracles) :
    process_table cfg (r :: rest) limit true o
      = ⟨⟨0, 0, rest.length + 1⟩, [], []⟩ := by
  simp [process_table]

/-- C2 counterexample: with 5 candidates found and `limit = 2`, a dry run
returns `skipped = 5` (the total found), not 3, so the claimed count of 3
does not hold `regardless of dry-run`. -/
theorem spec_c2_counterexample :
    ¬ (process_table tb_dress rows5 (some 2) true oracleAllFail).counts.skipped = 3 := by
  decide

/-- C2 amended: with 5 candidates and `limit = 2`, exactly the first 2
records are processed in live mode (the collaborator calls and the outcome
log are those of rows 1 and 2 only) and `skipped = 3` there; in dry-run mode
the returned counts are `{success 0, failed 0, skipped 5}` — the skipped
count equals the total found, not 3. -/
theorem spec_c2_amended (cfg : TableConfig) (a b c d e : Record) (o : Oracles) :
    (process_table cfg [a, b, c, d, e] (some 2) false o).counts.skipped = 3
    ∧ (process_table cfg [a, b, c, d, e] (some 2) false o).counts.success
        + (process_table cfg [a, b, c, d, e] (some 2) false o).counts.failed = 2
    ∧ (process_table cfg [a, b, c, d, e] (some 2) false o).events
        = (processRow cfg o 1 a).2 ++ (processRow cfg o 2 b).2
    ∧ (process_table cfg [a, b, c, d, e] (some 2) false o).log
        = [(rowIdOf a 1, (processRow cfg o 1 a).1), (rowIdOf b 2, (processRow cfg o 2 b).1)]
    ∧ process_table cfg [a, b, c, d, e] (some 2) true o = ⟨⟨0, 0, 5⟩, [], []⟩ := by
  rcases h1 : processRow cfg o 1 a with ⟨o1, e1⟩
  rcases h2 : processRow cfg o 2 b with ⟨o2, e2⟩
  have hsl : applyLimit [a, b, c, d, e] (some 2) = [a, b] := by
    simp [applyLimit, pySlice]
  refine ⟨?_, ?_, ?_, ?_, ?_⟩ <;>
    simp [process_table, hsl, runRows, h1, h2] <;>
    rcases o1 <;> rcases o2 <;> simp

/-- C5: the prompt for the dress-table record
`{id:7, type:"a_line", color:"Ivory", mood:"romantic"}` contains the
fragments `Style: A Line.`, `Color: Ivory.` and `Mood: Romantic.`, starts
with the dress opening boilerplate, ends with the fixed closing quality
sentence, and contains neither the record's id (`7`) nor any name. -/
theorem spec_c5 :
    lit "Style: A Line." <:+: generate_prompt_from_row tb_dress dressRecord7
    ∧ lit "Color: Ivory." <:+: generate_prompt_from_row tb_dress dressRecord7
    ∧ lit "Mood: Romantic." <:+: generate_prompt_from_row tb_dress dressRecord7
    ∧ lit "A professional product photograph of a beautiful wedding dress on a display."
        <+: generate_prompt_from_row tb_dress dressRecord7
    ∧ closingSentence <:+ generate_prompt_from_row tb_dress dressRecord7
    ∧ ¬ lit "7" <:+: generate_prompt_from_row tb_dress dressRecord7 := by
  decide

/-- C9: in every run the returned counts satisfy
`success + failed + skipped = number of candidate records found`, and in live
mode `success + failed` equals the number of records selected into the
pipeline by the limit. -/
theorem spec_c9 (cfg : TableConfig) (rows : List Record) (limit : Option Int)
    (dry : Bool) (o : Oracles) :
    ((process_table cfg rows limit dry o).counts.success
      + (process_table cfg rows limit dry o).counts.failed
      + (process_table cfg rows limit dry o).counts.skipped = rows.length)
    ∧ ((process_table cfg rows limit false o).counts.success
      + (process_table cfg rows limit false o).counts.failed
      = (applyLimit rows limit).length) := by
  have hrr := runRows_counts cfg o (applyLimit rows limit) 1
  have hle := applyLimit_len_le rows limit
  constructor
  · by_cases hr : rows = []
    · subst hr; simp [process_table]
    · cases dry
      · simp [process_table, hr]
        omega
      · simp [process_table, hr]
  · by_cases hr : rows = []
    · subst hr
      simp [process_table, applyLimit_nil]
    · simp [process_table, hr]
      omega

/-- C10: a limit of `0` is falsy in Python and therefore treated exactly like
an absent limit: the run is identical to the run with no limit, and in live
mode no record is counted as skipped. -/
theorem spec_c10 (cfg : TableConfig) (rows : List Record) (dry : Bool) (o : Oracles) :
    process_table cfg rows (some 0) dry o = process_table cfg rows none dry o
    ∧ (process_table cfg rows (some 0) false o).counts.skipped = 0 := by
  have hal : applyLimit rows (some 0) = rows := by simp [applyLimit]
  have hal' : applyLimit rows none = rows := rfl
  constructor
  · simp [process_table, hal, hal']
  · by_cases hr : rows = []
    · subst hr; simp [process_table]
    · simp [process_table, hal, hr]

lemma genAttempts_stub_success (n : Nat) (url : Str) :
    ∀ (rem i : Nat), i ≤ n → n < i + rem →
      genAttempts (stubProvider n url) i rem
        = (some url, n + 1 - i, ∑ k in Finset.Ico i n, 2 ^ k) := by
  intro rem
  induction rem with
  | zero => intro i h1 h2; omega
  | succ r ih =>
    intro i h1 h2
    rcases r with _ | r'
    · have hin : i = n := by omega
      subst hin
      simp [genAttempts, stubProvider]
    · by_cases hin : i = n
      · subst hin
        simp [genAttempts, stubProvider]
      · have hlt : i < n := lt_of_le_of_ne h1 hin
        have hnone : stubProvider n url i = none := by simp [stubProvider, hlt]
        have hrec := ih (i + 1) (by omega) (by omega)
        show (match stubProvider n url i with
          | some url => (some url, 1, 0)
          | none =>
            match genAttempts (stubProvider n url) (i + 1) (r' + 1) with
            | (res, a, w) => (res, a + 1, w + 2 ^ i)) = _
        rw [hnone, hrec]
        refine Prod.ext rfl (Prod.ext ?_ ?_)
        · show n + 1 - (i + 1) + 1 = n + 1 - i
          omega
        · show (∑ k in Finset.Ico (i + 1) n, 2 ^ k) + 2 ^ i = ∑ k in Finset.Ico i n, 2 ^ k
          rw [Finset.sum_eq_sum_Ico_succ_bot hlt]
          omega

lemma genAttempts_stub_fail (n : Nat) (url : Str) :
    ∀ (rem i : Nat), 1 ≤ rem → i + rem ≤ n →
      genAttempts (stubProvider n url) i rem
        = (none, rem, ∑ k in Finset.Ico i (i + rem - 1), 2 ^ k) := by
  intro rem
  induction rem with
  | zero => intro i h1 h2; omega
  | succ r ih =>
    intro i h1 h2
    rcases r with _ | r'
    · have hlt : i < n := by omega
      simp [genAttempts, stubProvider, hlt]
    · have hlt : i < n := by omega
      have hnone : stubProvider n url i = none := by simp [stubProvider, hlt]
      have hrec := ih (i + 1) (by omega) (by omega)
      show (match stubProvider n url i with
        | some url => (some url, 1, 0)
        | none =>
          match genAttempts (stubProvider n url) (i + 1) (r' + 1) with
          | (res, a, w) => (res, a + 1, w + 2 ^ i)) = _
      rw [hnone, hrec]
      refine Prod.ext rfl (Prod.ext rfl ?_)
      show (∑ k in Finset.Ico (i + 1) (i + 1 + (r' + 1) - 1), 2 ^ k) + 2 ^ i
        = ∑ k in Finset.Ico i (i + (r' + 2) - 1), 2 ^ k
      have hb : i < i + (r' + 2) - 1 := by omega
      rw [Finset.sum_eq_sum_Ico_succ_bot hb]
      have : i + 1 + (r' + 1) - 1 = i + (r' + 2) - 1 := by omega
      rw [this]
      omega

/-- C3: against a provider stub that fails its first `n` calls and succeeds on
call `n + 1`: with effective `maxRetries > n` the call returns the success
reference (after `n + 1` provider calls); with `1 ≤ maxRetries ≤ n` it returns
failure — a `none` value, not an exception — after exactly `maxRetries`
provider calls, having slept `2^0 + … + 2^(maxRetries-2)` seconds in total
(the wait before attempt `k + 1` is `2^k`, and there is no wait after the
final attempt). -/
theorem spec_c3 (n : Nat) (url : Str) (maxR dflt : Nat) (hmax : 1 ≤ maxR) :
    (n < maxR →
      generate_image (stubProvider n url) (some maxR) dflt
        = (some url, n + 1, ∑ k in Finset.range n, 2 ^ k))
    ∧ (maxR ≤ n →
      generate_image (stubProvider n url) (some maxR) dflt
        = (none, maxR, ∑ k in Finset.range (maxR - 1), 2 ^ k)) := by
  have hor : pyOrNat (some maxR) dflt = maxR := by
    rcases maxR with _ | k
    · omega
    · rfl
  constructor
  · intro h
    show genAttempts (stubProvider n url) 0 (pyOrNat (some maxR) dflt) = _
    rw [hor, Finset.range_eq_Ico]
    simpa using genAttempts_stub_success n url maxR 0 (by omega) (by omega)
  · intro h
    show genAttempts (stubProvider n url) 0 (pyOrNat (some maxR) dflt) = _
    rw [hor, Finset.range_eq_Ico]
    simpa using genAttempts_stub_fail n url maxR 0 hmax (by omega)

/-- Witness for C3 at `n = 2`, `maxRetries = 4` (success after 3 calls) and
`n = 5`, `maxRetries = 3` (failure after 3 calls, 1 + 2 seconds slept). -/
theorem spec_c3_witness :
    (1 ≤ 4 ∧ generate_image (stubProvider 2 (lit "u")) (some 4) 3
        = (some (lit "u"), 3, ∑ k in Finset.range 2, 2 ^ k))
    ∧ (1 ≤ 3 ∧ generate_image (stubProvider 5 (lit "u")) (some 3) 3
        = (none, 3, ∑ k in Finset.range (3 - 1), 2 ^ k)) :=
  ⟨⟨by norm_num, (spec_c3 2 (lit "u") 4 3 (by norm_num)).1 (by norm_num)⟩,
    ⟨by norm_num, (spec_c3 5 (lit "u") 3 3 (by norm_num)).2 (by norm_num)⟩⟩

/-- C4 counterexample: for a record whose provider call succeeds but whose
local save fails, the recorded outcome is `server_upload_failed` (the upload
stage finds no local file), not `image_generation_failed` as claimed. -/
theorem spec_c4_counterexample :
    (process_table tb_dress [[(lit "id", PyVal.vInt 1)]] none false oracleSaveFails).log
      = [(PyVal.vInt 1, RowOutcome.failed (lit "server_upload_failed"))]
    ∧ lit "server_upload_failed" ≠ lit "image_generation_failed" := by
  decide

/-- C4 amended: when generation succeeds at the provider and the local save
fails (and the output directory is fresh, so the file is missing), the
record's recorded failure outcome is `server_upload_failed` — the upload
failure class — because `generate_and_save` ignores the download result and
returns the provider URL, and the upload stage then fails on the missing
local file. -/
theorem spec_c4_amended (cfg : TableConfig) (o : Oracles) (i : Nat) (row : Record)
    (url : Str)
    (hgen : o.gen (generate_prompt_from_row cfg row) (rowFilename cfg row i) = some url)
    (hsave : o.save url (rowFilename cfg row i) = false) :
    (processRow cfg o i row).1 = RowOutcome.failed (lit "server_upload_failed") := by
  simp [processRow, generate_and_save, hgen, hsave]

/-- Witness for C4 at the concrete save-failure oracles. -/
theorem spec_c4_witness :
    oracleSaveFails.gen (generate_prompt_from_row tb_dress [(lit "id", PyVal.vInt 1)])
        (rowFilename tb_dress [(lit "id", PyVal.vInt 1)] 1) = some (lit "http-img-url")
    ∧ oracleSaveFails.save (lit "http-img-url")
        (rowFilename tb_dress [(lit "id", PyVal.vInt 1)] 1) = false
    ∧ (processRow tb_dress oracleSaveFails 1 [(lit "id", PyVal.vInt 1)]).1
        = RowOutcome.failed (lit "server_upload_failed") :=
  ⟨rfl, rfl,
    spec_c4_amended tb_dress oracleSaveFails 1 [(lit "id", PyVal.vInt 1)]
      (lit "http-img-url") rfl rfl⟩

lemma inf_nil_eq {p : Str} (h : p <:+: ([] : Str)) : p = [] := by
  obtain ⟨u, v, h⟩ := h
  exact (List.append_eq_nil.mp (List.append_eq_nil.mp h).1).2

lemma pref_cons_elim {p : Str} {c : Char} {l : Str} (h : p <+: c :: l) :
    p = [] ∨ ∃ p', p = c :: p' ∧ p' <+: l := by
  cases p with
  | nil => exact Or.inl rfl
  | cons x xs =>
    rcases List.cons_prefix_cons.mp h with ⟨h1, h2⟩
    exact Or.inr ⟨xs, by rw [h1], h2⟩

lemma pref_cons_intro {p l : Str} (c : Char) (h : p <+: l) : c :: p <+: c :: l :=
  List.cons_prefix_cons.mpr ⟨rfl, h⟩

lemma inf_cons_elim {p : Str} {c : Char} {l : Str} (h : p <:+: c :: l) :
    p <+: c :: l ∨ p <:+: l := by
  obtain ⟨u, v, h⟩ := h
  cases u with
  | nil => exact Or.inl ⟨v, by simpa using h⟩
  | cons x xs =>
    rw [List.cons_append, List.cons_append] at h
    injection h with h1 h2
    exact Or.inr ⟨xs, v, h2⟩

lemma inf_cons_intro {p l : Str} (c : Char) (h : p <:+: l) : p <:+: c :: l := by
  obtain ⟨u, v, hh⟩ := h
  exact ⟨c :: u, v, by rw [List.cons_append, List.cons_append, hh]⟩

lemma inf_of_pref {p l : Str} (h : p <+: l) : p <:+: l := by
  obtain ⟨t, ht⟩ := h
  exact ⟨[], t, by simpa using ht⟩

lemma inf_of_suff {p l : Str} (h : p <:+ l) : p <:+: l := by
  obtain ⟨t, ht⟩ := h
  exact ⟨t, [], by simpa using ht⟩

lemma inf_append_left {p a : Str} (b : Str) (h : p <:+: a) : p <:+: a ++ b := by
  obtain ⟨u, v, hh⟩ := h
  exact ⟨u, v ++ b, by rw [← List.append_assoc, hh]⟩

lemma inf_append_right (a : Str) {p b : Str} (h : p <:+: b) : p <:+: a ++ b := by
  obtain ⟨u, v, hh⟩ := h
  exact ⟨a ++ u, v, by rw [← hh]; simp [List.append_assoc]⟩

lemma pref_append_cases {p a b : Str} (h : p <+: a ++ b) :
    p <+: a ∨ ∃ p', p = a ++ p' ∧ p' <+: b := by
  obtain ⟨t, ht⟩ := h
  rcases List.append_eq_append_iff.mp ht with ⟨a', ha1, _⟩ | ⟨c', hc1, hc2⟩
  · exact Or.inl ⟨a', ha1.symm⟩
  · exact Or.inr ⟨c', hc1, ⟨t, hc2.symm⟩⟩

lemma inf_append_cases {p a b : Str} (h : p <:+: a ++ b) :
    p <:+: a ∨ p <:+: b
      ∨ ∃ a₁ b₁, a₁ ≠ [] ∧ b₁ ≠ [] ∧ p = a₁ ++ b₁ ∧ a₁ <:+ a ∧ b₁ <+: b := by
  obtain ⟨u, v, h⟩ := h
  rw [List.append_assoc] at h
  rcases List.append_eq_append_iff.mp h with ⟨w, hw1, hw2⟩ | ⟨w, hw1, hw2⟩
  · rcases List.append_eq_append_iff.mp hw2 with ⟨x, hx1, _⟩ | ⟨x, hx1, hx2⟩
    · exact Or.inl ⟨u, x, by rw [List.append_assoc, ← hx1, ← hw1]⟩
    · by_cases hw : w = []
      · subst hw
        have hpx : p = x := by simpa using hx1
        exact Or.inr (Or.inl (inf_of_pref ⟨v, by rw [hpx]; exact hx2.symm⟩))
      · by_cases hx : x = []
        · subst hx
          have hpw : p = w := by simpa using hx1
          exact Or.inl (inf_of_suff ⟨u, by rw [hpw]; exact hw1.symm⟩)
        · exact Or.inr (Or.inr ⟨w, x, hw, hx, hx1, ⟨u, hw1.symm⟩, ⟨v, hx2.symm⟩⟩)
  · refine Or.inr (Or.inl ⟨w, v, ?_⟩)
    rw [List.append_assoc, ← hw2]

lemma suff_index {a l : Str} (ha : a ≠ []) (h : a <:+ l) :
    ∃ i, i < l.length ∧ l.drop i = a := by
  obtain ⟨t, ht⟩ := h
  refine ⟨t.length, ?_, ?_⟩
  · rw [← ht, List.length_append]
    have : 0 < a.length := List.length_pos.mpr ha
    omega
  · rw [← ht, List.drop_left]

lemma drop_of_pref {old s t : Str} (ht : old ++ t = s) : s.drop old.length = t := by
  rw [← ht, List.drop_left]

lemma len_tail_of_pref {old t : Str} {c : Char} {rest : Str} (hne : old ≠ [])
    (ht : old ++ t = c :: rest) : t.length ≤ rest.length := by
  have hl := congrArg List.length ht
  simp [List.length_append] at hl
  have hp : 0 < old.length := List.length_pos.mpr hne
  omega

lemma pyReplace_eq_self (old new : Str) :
    ∀ s, ¬ old <:+: s → pyReplace old new s = s := by
  suffices main : ∀ (n : Nat) (s : Str), s.length ≤ n → ¬ old <:+: s →
      pyReplace old new s = s by
    intro s; exact main s.length s (le_refl _)
  intro n
  induction n with
  | zero =>
    intro s hlen _
    have : s = [] := List.eq_nil_of_length_eq_zero (Nat.le_zero.mp hlen)
    subst this; rfl
  | succ m ih =>
    intro s hlen hninf
    cases s with
    | nil => rfl
    | cons c rest =>
      rw [pyReplace_cons]
      have hcond : ¬ (old ≠ [] ∧ old <+: (c :: rest)) := by
        rintro ⟨_, h2⟩
        exact hninf (inf_of_pref h2)
      rw [if_neg hcond]
      have hr : rest.length ≤ m := by
        simp at hlen; omega
      rw [ih rest hr (fun h => hninf (inf_cons_intro c h))]

lemma mem_pyReplace_of_mem (old new : Str) {c : Char} (hc : c ∉ old) :
    ∀ s, c ∈ s → c ∈ pyReplace old new s := by
  suffices main : ∀ (n : Nat) (s : Str), s.length ≤ n → c ∈ s →
      c ∈ pyReplace old new s by
    intro s; exact main s.length s (le_refl _)
  intro n
  induction n with
  | zero =>
    intro s hlen hmem
    have : s = [] := List.eq_nil_of_length_eq_zero (Nat.le_zero.mp hlen)
    subst this; simp at hmem
  | succ m ih =>
    intro s hlen hmem
    cases s with
    | nil => simp at hmem
    | cons c' rest =>
      rw [pyReplace_cons]
      split
      · rename_i h
        obtain ⟨t, ht⟩ := h.2
        have hdrop : (c' :: rest).drop old.length = t := drop_of_pref ht
        rw [hdrop]
        have hmem' : c ∈ old ++ t := by rw [ht]; exact hmem
        rcases List.mem_append.mp hmem' with h1 | h1
        · exact absurd h1 hc
        · have hlt : t.length ≤ m := by
            have := len_tail_of_pref h.1 ht
            simp at hlen; omega
          exact List.mem_append.mpr (Or.inr (ih t hlt h1))
      · rcases List.mem_cons.mp hmem with h1 | h1
        · exact List.mem_cons.mpr (Or.inl h1)
        · have hr : rest.length ≤ m := by simp at hlen; omega
          exact List.mem_cons.mpr (Or.inr (ih rest hr h1))

lemma mem_of_mem_pyReplace (old new : Str) {c : Char} :
    ∀ s, c ∈ pyReplace old new s → c ∈ s ∨ c ∈ new := by
  suffices main : ∀ (n : Nat) (s : Str), s.length ≤ n → c ∈ pyReplace old new s →
      c ∈ s ∨ c ∈ new by
    intro s; exact main s.length s (le_refl _)
  intro n
  induction n with
  | zero =>
    intro s hlen hmem
    have : s = [] := List.eq_nil_of_length_eq_zero (Nat.le_zero.mp hlen)
    subst this; rw [pyReplace_nil] at hmem; simp at hmem
  | succ m ih =>
    intro s hlen hmem
    cases s with
    | nil => rw [pyReplace_nil] at hmem; simp at hmem
    | cons c' rest =>
      rw [pyReplace_cons] at hmem
      revert hmem
      split
      · rename_i h
        intro hmem
        obtain ⟨t, ht⟩ := h.2
        have hdrop : (c' :: rest).drop old.length = t := drop_of_pref ht
        rw [hdrop] at hmem
        rcases List.mem_append.mp hmem with h1 | h1
        · exact Or.inr h1
        · have hlt : t.length ≤ m := by
            have := len_tail_of_pref h.1 ht
            simp at hlen; omega
          rcases ih t hlt h1 with h2 | h2
          · exact Or.inl (by rw [← ht]; exact List.mem_append.mpr (Or.inr h2))
          · exact Or.inr h2
      · intro hmem
        rcases List.mem_cons.mp hmem with h1 | h1
        · exact Or.inl (List.mem_cons.mpr (Or.inl h1))
        · have hr : rest.length ≤ m := by simp at hlen; omega
          rcases ih rest hr h1 with h2 | h2
          · exact Or.inl (List.mem_cons.mpr (Or.inr h2))
          · exact Or.inr h2

lemma pyReplace_ne_nil (old new : Str) (hnew : new ≠ []) (s : Str) (hs : s ≠ []) :
    pyReplace old new s ≠ [] := by
  cases s with
  | nil => exact absurd rfl hs
  | cons c rest =>
    rw [pyReplace_cons]
    split
    · simp [hnew]
    · simp

lemma length_le_pyReplace (old new : Str) (hlen : old.length ≤ new.length) :
    ∀ s, s.length ≤ (pyReplace old new s).length := by
  suffices main : ∀ (n : Nat) (s : Str), s.length ≤ n →
      s.length ≤ (pyReplace old new s).length by
    intro s; exact main s.length s (le_refl _)
  intro n
  induction n with
  | zero =>
    intro s hl
    have : s = [] := List.eq_nil_of_length_eq_zero (Nat.le_zero.mp hl)
    subst this; simp
  | succ m ih =>
    intro s hl
    cases s with
    | nil => simp
    | cons c rest =>
      rw [pyReplace_cons]
      split
      · rename_i h
        obtain ⟨t, ht⟩ := h.2
        have hdrop : (c :: rest).drop old.length = t := drop_of_pref ht
        rw [hdrop]
        have hlt : t.length ≤ m := by
          have := len_tail_of_pref h.1 ht
          simp at hl; omega
        have h1 := ih t hlt
        have h2 := congrArg List.length ht
        simp [List.length_append] at h2 ⊢
        omega
      · have hr : rest.length ≤ m := by simp at hl; omega
        have h1 := ih rest hr
        simp
        omega

lemma dash_head_not_mem (xs : Str) :
    ('-' :: xs) ∉ [lit "true", lit "yes", lit "1"] := by
  intro h
  have hh : ('-' :: xs).head? = some '-' := rfl
  rcases List.mem_cons.mp h with h1 | h1
  · rw [h1] at hh; exact absurd hh (by decide)
  rcases List.mem_cons.mp h1 with h2 | h2
  · rw [h2] at hh; exact absurd hh (by decide)
  · rw [List.mem_singleton.mp h2] at hh; exact absurd hh (by decide)

lemma length_le_sanitize (s : Str) : s.length ≤ (_sanitize_value s).length := by
  have h1 := length_le_pyReplace (lit "SEXY") (lit "Sophisticated") (by decide) s
  have h2 := length_le_pyReplace (lit "sexy") (lit "sophisticated") (by decide)
    (pyReplace (lit "SEXY") (lit "Sophisticated") s)
  have h3 := length_le_pyReplace (lit "SEXY_ELEGANT") (lit "Elegant and Sophisticated")
    (by decide)
    (pyReplace (lit "sexy") (lit "sophisticated")
      (pyReplace (lit "SEXY") (lit "Sophisticated") s))
  have h4 := length_le_pyReplace (lit "Sexy Elegant") (lit "Elegant and Sophisticated")
    (by decide)
    (pyReplace (lit "SEXY_ELEGANT") (lit "Elegant and Sophisticated")
      (pyReplace (lit "sexy") (lit "sophisticated")
        (pyReplace (lit "SEXY") (lit "Sophisticated") s)))
  unfold _sanitize_value
  omega

lemma sanitize_short {s : Str} (hs : s.length ≤ 4) :
    _sanitize_value s = s ∨ s = lit "SEXY" ∨ s = lit "sexy" := by
  by_cases h1 : lit "SEXY" <:+: s
  · have hle := h1.length_le
    have h4 : (lit "SEXY").length = 4 := by decide
    exact Or.inr (Or.inl (h1.eq_of_length (by omega)).symm)
  · by_cases h2 : lit "sexy" <:+: s
    · have hle := h2.length_le
      have h4 : (lit "sexy").length = 4 := by decide
      exact Or.inr (Or.inr (h2.eq_of_length (by omega)).symm)
    · left
      have h3 : ¬ lit "SEXY_ELEGANT" <:+: s := by
        intro h
        have hle := h.length_le
        have h12 : (lit "SEXY_ELEGANT").length = 12 := by decide
        omega
      have h4 : ¬ lit "Sexy Elegant" <:+: s := by
        intro h
        have hle := h.length_le
        have h12 : (lit "Sexy Elegant").length = 12 := by decide
        omega
      unfold _sanitize_value
      rw [pyReplace_eq_self _ _ s h1, pyReplace_eq_self _ _ s h2,
        pyReplace_eq_self _ _ s h3, pyReplace_eq_self _ _ s h4]

lemma lower_sanitize_mem_iff (s : Str) :
    pyLower (_sanitize_value s) ∈ [lit "true", lit "yes", lit "1"]
      ↔ pyLower s ∈ [lit "true", lit "yes", lit "1"] := by
  have hlen4 : ∀ t : Str, pyLower t ∈ [lit "true", lit "yes", lit "1"] → t.length ≤ 4 := by
    intro t ht
    have hmap : (pyLower t).length = t.length := List.length_map ..
    have h4 : (lit "true").length = 4 := by decide
    have h3 : (lit "yes").length = 3 := by decide
    have h1 : (lit "1").length = 1 := by decide
    rcases List.mem_cons.mp ht with h | h
    · have := congrArg List.length h; omega
    rcases List.mem_cons.mp h with h' | h'
    · have := congrArg List.length h'; omega
    · have := congrArg List.length (List.mem_singleton.mp h'); omega
  constructor
  · intro h
    have hs4 : s.length ≤ 4 := by
      have ha := hlen4 _ h
      have hb := length_le_sanitize s
      omega
    rcases sanitize_short hs4 with he | he | he
    · rwa [he] at h
    · subst he
      have hv : _sanitize_value (lit "SEXY") = lit "Sophisticated" := by decide
      rw [hv] at h
      exact absurd h (by decide)
    · subst he
      have hv : _sanitize_value (lit "sexy") = lit "sophisticated" := by decide
      rw [hv] at h
      exact absurd h (by decide)
  · intro h
    have hs4 : s.length ≤ 4 := hlen4 _ h
    rcases sanitize_short hs4 with he | he | he
    · rwa [he]
    · subst he; exact absurd h (by decide)
    · subst he; exact absurd h (by decide)

/-- C8: for every modelled value of the `parking` field, the fragment the
code emits is exactly the spec's classification: a positive numeric value
(Python numbers include `bool`) gives the single capacity sentence with the
number of cars, a non-numeric value whose string form is `true`/`yes`/`1`
case-insensitively gives the single generic availability sentence, and every
other value gives no parking fragment. -/
theorem spec_c8 (v : PyVal) :
    fieldFragment (lit "parking") v = parkingClaimSpec v := by
  have heq : fieldFragment (lit "parking") v
      = if !pyTruthy v then none else parkingFragment (sanitizeVal v) := rfl
  rw [heq]
  cases v with
  | vNone => decide
  | vBool b => cases b <;> decide
  | vInt n =>
    by_cases h0 : n = 0
    · subst h0; decide
    · have ht : pyTruthy (PyVal.vInt n) = true := by
        simp [pyTruthy, bne_iff_ne]; omega
      rw [ht]
      show parkingFragment (PyVal.vInt n) = parkingClaimSpec (PyVal.vInt n)
      rfl
  | vStr s =>
    rcases s with _ | ⟨c, rest⟩
    · decide
    · have ht : pyTruthy (PyVal.vStr (c :: rest)) = true := rfl
      rw [ht]
      show parkingFragment (PyVal.vStr (_sanitize_value (c :: rest)))
        = parkingClaimSpec (PyVal.vStr (c :: rest))
      unfold parkingFragment parkingClaimSpec
      show (if posNumeric (PyVal.vStr (_sanitize_value (c :: rest))) then _
        else if pyLower (pyStr (PyVal.vStr (_sanitize_value (c :: rest)))) ∈ _ then _ else _) = _
      by_cases hmem : pyLower (c :: rest) ∈ [lit "true", lit "yes", lit "1"]
      · have h2 := (lower_sanitize_mem_iff (c :: rest)).mpr hmem
        simp [posNumeric, pyStr, hmem, h2]
      · have h2 : pyLower (_sanitize_value (c :: rest)) ∉ [lit "true", lit "yes", lit "1"] :=
          fun h => hmem ((lower_sanitize_mem_iff (c :: rest)).mp h)
        simp [posNumeric, pyStr, hmem, h2]

lemma truthy_of_ne_nil {v : Str} (h : v ≠ []) : pyTruthy (PyVal.vStr v) = true := by
  cases v
  · exact absurd rfl h
  · rfl

lemma isEmpty_false_of_ne_nil {v : Str} (h : v ≠ []) : v.isEmpty = false := by
  cases v
  · exact absurd rfl h
  · rfl

lemma mem_sanitize_of_mem {c : Char} (h128 : 128 ≤ c.toNat) {v : Str} (hc : c ∈ v) :
    c ∈ _sanitize_value v := by
  have hno : ∀ (w : String), (∀ x ∈ lit w, x.toNat < 128) → c ∉ lit w := by
    intro w hw hx
    have := hw c hx
    omega
  unfold _sanitize_value
  apply mem_pyReplace_of_mem _ _ (hno "Sexy Elegant" (by decide))
  apply mem_pyReplace_of_mem _ _ (hno "SEXY_ELEGANT" (by decide))
  apply mem_pyReplace_of_mem _ _ (hno "sexy" (by decide))
  exact mem_pyReplace_of_mem _ _ (hno "SEXY" (by decide)) v hc

lemma mem_sanitize_ascii {v : Str} (hv : ∀ c ∈ v, c.toNat < 128) :
    ∀ c ∈ _sanitize_value v, c.toNat < 128 := by
  intro c hc
  unfold _sanitize_value at hc
  rcases mem_of_mem_pyReplace _ _ _ hc with hc | hc
  · rcases mem_of_mem_pyReplace _ _ _ hc with hc | hc
    · rcases mem_of_mem_pyReplace _ _ _ hc with hc | hc
      · rcases mem_of_mem_pyReplace _ _ _ hc with hc | hc
        · exact hv c hc
        · have hw : ∀ x ∈ lit "Sophisticated", x.toNat < 128 := by decide
          exact hw c hc
      · have hw : ∀ x ∈ lit "sophisticated", x.toNat < 128 := by decide
        exact hw c hc
    · have hw : ∀ x ∈ lit "Elegant and Sophisticated", x.toNat < 128 := by decide
      exact hw c hc
  · have hw : ∀ x ∈ lit "Elegant and Sophisticated", x.toNat < 128 := by decide
    exact hw c hc

lemma sanitize_ne_nil {v : Str} (hv : v ≠ []) : _sanitize_value v ≠ [] := by
  unfold _sanitize_value
  apply pyReplace_ne_nil _ _ (by decide)
  apply pyReplace_ne_nil _ _ (by decide)
  apply pyReplace_ne_nil _ _ (by decide)
  exact pyReplace_ne_nil _ _ (by decide) v hv

/-- C6 amended: for the ASCII-only fields `color` and `shape`, a value
containing any character with code point ≥ 128 yields no fragment at all
(sanitization never removes such a character); a nonempty all-ASCII value
yields exactly the labelled fragment built from its sanitized form — which is
the value itself whenever sanitization leaves it unchanged, but not in
general. -/
theorem spec_c6 (v : Str) :
    ((∃ c ∈ v, 128 ≤ c.toNat) →
      fieldFragment (lit "color") (PyVal.vStr v) = none
      ∧ fieldFragment (lit "shape") (PyVal.vStr v) = none)
    ∧ (v ≠ [] → (∀ c ∈ v, c.toNat < 128) →
      fieldFragment (lit "color") (PyVal.vStr v)
        = some (lit "Color: " ++ _sanitize_value v ++ lit ".")
      ∧ fieldFragment (lit "shape") (PyVal.vStr v)
        = some (lit "Silhouette: " ++ _sanitize_value v ++ lit ".")) := by
  have hceq : fieldFragment (lit "color") (PyVal.vStr v)
      = if !pyTruthy (PyVal.vStr v) then none
        else asciiOnlyFragment (lit "Color: ") (sanitizeVal (PyVal.vStr v)) := rfl
  have hseq : fieldFragment (lit "shape") (PyVal.vStr v)
      = if !pyTruthy (PyVal.vStr v) then none
        else asciiOnlyFragment (lit "Silhouette: ") (sanitizeVal (PyVal.vStr v)) := rfl
  constructor
  · rintro ⟨c, hc, h128⟩
    have hne : v ≠ [] := List.ne_nil_of_mem hc
    have ht := truthy_of_ne_nil hne
    have hmem := mem_sanitize_of_mem h128 hc
    have hall : allAscii (_sanitize_value v) = false := by
      cases hx : allAscii (_sanitize_value v)
      · rfl
      · have := List.all_eq_true.mp hx _ hmem
        simp at this
        omega
    rw [hceq, hseq, ht]
    constructor
    · show asciiOnlyFragment (lit "Color: ") (PyVal.vStr (_sanitize_value v)) = none
      simp [asciiOnlyFragment, hall]
    · show asciiOnlyFragment (lit "Silhouette: ") (PyVal.vStr (_sanitize_value v)) = none
      simp [asciiOnlyFragment, hall]
  · intro hne hall
    have ht := truthy_of_ne_nil hne
    have hsn := sanitize_ne_nil hne
    have hall' : allAscii (_sanitize_value v) = true :=
      List.all_eq_true.mpr fun x hx => decide_eq_true (mem_sanitize_ascii hall x hx)
    rw [hceq, hseq, ht]
    constructor
    · show asciiOnlyFragment (lit "Color: ") (PyVal.vStr (_sanitize_value v)) = _
      simp [asciiOnlyFragment, hall', isEmpty_false_of_ne_nil hsn]
    · show asciiOnlyFragment (lit "Silhouette: ") (PyVal.vStr (_sanitize_value v)) = _
      simp [asciiOnlyFragment, hall', isEmpty_false_of_ne_nil hsn]

/-- C6 counterexample: `"sexy"` is nonempty and all-ASCII, yet the emitted
color fragment is `Color: sophisticated.`, which does not contain the value —
sanitization rewrote it — so "a labelled fragment containing the value is
emitted" fails as stated. -/
theorem spec_c6_counterexample :
    fieldFragment (lit "color") (PyVal.vStr (lit "sexy")) = some (lit "Color: sophisticated.")
    ∧ lit "sexy" ≠ []
    ∧ (∀ c ∈ lit "sexy", c.toNat < 128)
    ∧ ¬ lit "sexy" <:+: lit "Color: sophisticated." := by
  decide

/-- Witness for C6 at a Korean (non-ASCII) value and at `"Ivory"`. -/
theorem spec_c6_witness :
    fieldFragment (lit "color") (PyVal.vStr (lit "아이보리")) = none
    ∧ fieldFragment (lit "color") (PyVal.vStr (lit "Ivory")) = some (lit "Color: Ivory.") := by
  constructor
  · exact ((spec_c6 (lit "아이보리")).1 ⟨'아', by decide, by decide⟩).1
  · have h := ((spec_c6 (lit "Ivory")).2 (by decide) (by decide)).1
    exact h.trans (by decide)

/-- Preservation: if the pattern `p` does not occur in `s`, it does not occur
in `s.replace(old, new)` either, provided `p` does not occur in `new`, no
suffix of `new` is a prefix of `p`, and every proper suffix of `p` is
prefix-incomparable with `new`.  The second conjunct is the strengthening the
induction needs: a proper suffix of `p` that is a prefix of the output is
already a prefix of the input. -/
lemma pres (old new p : Str) (hp : p ≠ [])
    (hA : ¬ p <:+: new)
    (hB : ∀ i, i < new.length → ¬ (new.drop i <+: p))
    (hC : ∀ j, j < p.length → 0 < j → ¬ (p.drop j <+: new) ∧ ¬ (new <+: p.drop j)) :
    ∀ s, (¬ p <:+: s → ¬ p <:+: pyReplace old new s)
      ∧ (∀ j, 0 < j → j < p.length →
          p.drop j <+: pyReplace old new s → p.drop j <+: s) := by
  suffices main : ∀ (n : Nat) (s : Str), s.length ≤ n →
      (¬ p <:+: s → ¬ p <:+: pyReplace old new s)
      ∧ (∀ j, 0 < j → j < p.length →
          p.drop j <+: pyReplace old new s → p.drop j <+: s) by
    intro s; exact main s.length s (le_refl _)
  intro n
  induction n with
  | zero =>
    intro s hlen
    have hs : s = [] := List.eq_nil_of_length_eq_zero (Nat.le_zero.mp hlen)
    subst hs
    exact ⟨fun h hinf => h (by rwa [pyReplace_nil] at hinf),
      fun j _ _ hpref => by rwa [pyReplace_nil] at hpref⟩
  | succ m ih =>
    intro s hlen
    cases s with
    | nil =>
      exact ⟨fun h hinf => h (by rwa [pyReplace_nil] at hinf),
        fun j _ _ hpref => by rwa [pyReplace_nil] at hpref⟩
    | cons c rest =>
      rw [pyReplace_cons]
      by_cases hbr : old ≠ [] ∧ old <+: (c :: rest)
      · rw [if_pos hbr]
        obtain ⟨t, ht⟩ := hbr.2
        have hdrop : (c :: rest).drop old.length = t := drop_of_pref ht
        rw [hdrop]
        have htlen : t.length ≤ m := by
          have := len_tail_of_pref hbr.1 ht
          simp at hlen
          omega
        constructor
        · intro hns hinf
          rcases inf_append_cases hinf with h1 | h1 | ⟨a₁, b₁, ha1, _, hpe, hsuf, _⟩
          · exact hA h1
          · have hnt : ¬ p <:+: t := fun hx =>
              hns (by rw [← ht]; exact inf_append_right old hx)
            exact (ih t htlen).1 hnt h1
          · obtain ⟨i, hilt, hieq⟩ := suff_index ha1 hsuf
            exact hB i hilt (by rw [hieq]; exact ⟨b₁, hpe.symm⟩)
        · intro j hj0 hjlen hpref
          rcases pref_append_cases hpref with h1 | ⟨d', hde, _⟩
          · exact absurd h1 (hC j hjlen hj0).1
          · exact absurd ⟨d', hde.symm⟩ (hC j hjlen hj0).2
      · rw [if_neg hbr]
        have hrlen : rest.length ≤ m := by simp at hlen; omega
        constructor
        · intro hns hinf
          rcases inf_cons_elim hinf with h1 | h1
          · rcases pref_cons_elim h1 with h2 | ⟨p', hpe, hpp⟩
            · exact hp h2
            · rcases p' with _ | ⟨x, xs⟩
              · exact hns (inf_of_pref (by rw [hpe]; exact pref_cons_intro c ⟨rest, rfl⟩))
              · have hdrop1 : p.drop 1 = x :: xs := by rw [hpe]; rfl
                have hj : (1 : Nat) < p.length := by
                  have hl := congrArg List.length hpe
                  simp at hl
                  omega
                have h2 := (ih rest hrlen).2 1 (by omega) hj (by rw [hdrop1]; exact hpp)
                apply hns
                apply inf_of_pref
                rw [hpe]
                apply pref_cons_intro
                rw [← hdrop1]
                exact h2
          · have hnr : ¬ p <:+: rest := fun hx => hns (inf_cons_intro c hx)
            exact (ih rest hrlen).1 hnr h1
        · intro j hj0 hjlen hpref
          rcases pref_cons_elim hpref with h1 | ⟨d'', hde, hdp⟩
          · have hl := congrArg List.length h1
            simp [List.length_drop] at hl
            omega
          · have hdd : p.drop (j + 1) = d'' := by
              have h1 := congrArg (List.drop 1) hde
              rw [List.drop_drop] at h1
              have h2 : (c :: d'').drop 1 = d'' := rfl
              rw [h2] at h1
              exact h1
            by_cases hfin : j + 1 < p.length
            · have h2 := (ih rest hrlen).2 (j + 1) (by omega) hfin (by rw [hdd]; exact hdp)
              rw [hde]
              apply pref_cons_intro
              rw [← hdd]
              exact h2
            · have hdnil : d'' = [] := by
                have hl := congrArg List.length hdd
                simp [List.length_drop] at hl
                exact List.eq_nil_of_length_eq_zero (by omega)
              subst hdnil
              rw [hde]
              exact pref_cons_intro c ⟨rest, rfl⟩

/-- Elimination: after `s.replace(old, new)` the pattern `old` itself no
longer occurs, under the same overlap side conditions (they hold for the
`SEXY` and `sexy` substitutions, and fail — necessarily — for the
`Sexy Elegant` one). -/
lemma elim (old new : Str) (hone : old ≠ [])
    (hA : ¬ old <:+: new)
    (hB : ∀ i, i < new.length → ¬ (new.drop i <+: old))
    (hC : ∀ j, j < old.length → 0 < j → ¬ (old.drop j <+: new) ∧ ¬ (new <+: old.drop j)) :
    ∀ s, (¬ old <:+: pyReplace old new s)
      ∧ (∀ j, 0 < j → j < old.length →
          old.drop j <+: pyReplace old new s → old.drop j <+: s) := by
  suffices main : ∀ (n : Nat) (s : Str), s.length ≤ n →
      (¬ old <:+: pyReplace old new s)
      ∧ (∀ j, 0 < j → j < old.length →
          old.drop j <+: pyReplace old new s → old.drop j <+: s) by
    intro s; exact main s.length s (le_refl _)
  intro n
  induction n with
  | zero =>
    intro s hlen
    have hs : s = [] := List.eq_nil_of_length_eq_zero (Nat.le_zero.mp hlen)
    subst hs
    constructor
    · intro hinf
      rw [pyReplace_nil] at hinf
      exact hone (inf_nil_eq hinf)
    · intro j _ _ hpref
      rwa [pyReplace_nil] at hpref
  | succ m ih =>
    intro s hlen
    cases s with
    | nil =>
      constructor
      · intro hinf
        rw [pyReplace_nil] at hinf
        exact hone (inf_nil_eq hinf)
      · intro j _ _ hpref
        rwa [pyReplace_nil] at hpref
    | cons c rest =>
      rw [pyReplace_cons]
      by_cases hbr : old ≠ [] ∧ old <+: (c :: rest)
      · rw [if_pos hbr]
        obtain ⟨t, ht⟩ := hbr.2
        have hdrop : (c :: rest).drop old.length = t := drop_of_pref ht
        rw [hdrop]
        have htlen : t.length ≤ m := by
          have := len_tail_of_pref hbr.1 ht
          simp at hlen
          omega
        constructor
        · intro hinf
          rcases inf_append_cases hinf with h1 | h1 | ⟨a₁, b₁, ha1, _, hpe, hsuf, _⟩
          · exact hA h1
          · exact (ih t htlen).1 h1
          · obtain ⟨i, hilt, hieq⟩ := suff_index ha1 hsuf
            exact hB i hilt (by rw [hieq]; exact ⟨b₁, hpe.symm⟩)
        · intro j hj0 hjlen hpref
          rcases pref_append_cases hpref with h1 | ⟨d', hde, _⟩
          · exact absurd h1 (hC j hjlen hj0).1
          · exact absurd ⟨d', hde.symm⟩ (hC j hjlen hj0).2
      · rw [if_neg hbr]
        have hnp : ¬ old <+: (c :: rest) := fun h => hbr ⟨hone, h⟩
        have hrlen : rest.length ≤ m := by simp at hlen; omega
        constructor
        · intro hinf
          rcases inf_cons_elim hinf with h1 | h1
          · rcases pref_cons_elim h1 with h2 | ⟨p', hpe, hpp⟩
            · exact hone h2
            · rcases p' with _ | ⟨x, xs⟩
              · exact hnp (by rw [hpe]; exact pref_cons_intro c ⟨rest, rfl⟩)
              · have hdrop1 : old.drop 1 = x :: xs := by rw [hpe]; rfl
                have hj : (1 : Nat) < old.length := by
                  have hl := congrArg List.length hpe
                  simp at hl
                  omega
                have h2 := (ih rest hrlen).2 1 (by omega) hj (by rw [hdrop1]; exact hpp)
                apply hnp
                rw [hpe]
                apply pref_cons_intro
                rw [← hdrop1]
                exact h2
          · exact (ih rest hrlen).1 h1
        · intro j hj0 hjlen hpref
          rcases pref_cons_elim hpref with h1 | ⟨d'', hde, hdp⟩
          · have hl := congrArg List.length h1
            simp [List.length_drop] at hl
            omega
          · have hdd : old.drop (j + 1) = d'' := by
              have h1 := congrArg (List.drop 1) hde
              rw [List.drop_drop] at h1
              have h2 : (c :: d'').drop 1 = d'' := rfl
              rw [h2] at h1
              exact h1
            by_cases hfin : j + 1 < old.length
            · have h2 := (ih rest hrlen).2 (j + 1) (by omega) hfin (by rw [hdd]; exact hdp)
              rw [hde]
              apply pref_cons_intro
              rw [← hdd]
              exact h2
            · have hdnil : d'' = [] := by
                have hl := congrArg List.length hdd
                simp [List.length_drop] at hl
                exact List.eq_nil_of_length_eq_zero (by omega)
              subst hdnil
              rw [hde]
              exact pref_cons_intro c ⟨rest, rfl⟩

lemma cons_eq_extract {a : Str} {c e : Char} {tl d : Str}
    (ha : a = e :: tl) (hde : a = c :: d) : e = c ∧ tl = d := by
  have h := ha.symm.trans hde
  injection h with h1 h2
  exact ⟨h1, h2⟩

lemma pref_cons_of_head {a : Str} {e c : Char} {tl rest : Str}
    (ha : a = e :: tl) (hch : e = c) (htail : tl <+: rest) : a <+: c :: rest := by
  rw [ha, hch]
  exact pref_cons_intro c htail

/-- The `Sexy Elegant → Elegant and Sophisticated` substitution cannot be
handled by `elim`: the pattern's suffix `Elegant` is a prefix of the
replacement, so a literal `Sexy ` immediately before a replaced occurrence —
i.e. an occurrence of `Sexy Sexy Elegant` in the input — recreates the
pattern.  This lemma shows that is the only way: if the input contains no
`Sexy Sexy Elegant`, the output contains no `Sexy Elegant`.  The two
strengthenings track, for every proper suffix of the pattern that is a prefix
of the output, whether it came from the input or from the start of a
replacement block. -/
lemma rule4 : ∀ s : Str,
    (¬ lit "Sexy Sexy Elegant" <:+: s →
      ¬ lit "Sexy Elegant" <:+:
        pyReplace (lit "Sexy Elegant") (lit "Elegant and Sophisticated") s)
    ∧ (∀ j, 1 ≤ j → j ≤ 5 →
        (lit "Sexy Elegant").drop j <+:
          pyReplace (lit "Sexy Elegant") (lit "Elegant and Sophisticated") s →
        (lit "Sexy Elegant").drop j <+: s
          ∨ ((lit "Sexy ").drop j <+: s ∧ lit "Sexy Elegant" <+: s.drop (5 - j)))
    ∧ (∀ j, 6 ≤ j → j < 12 →
        (lit "Sexy Elegant").drop j <+:
          pyReplace (lit "Sexy Elegant") (lit "Elegant and Sophisticated") s →
        (lit "Sexy Elegant").drop j <+: s) := by
  suffices main : ∀ (n : Nat) (s : Str), s.length ≤ n →
      (¬ lit "Sexy Sexy Elegant" <:+: s →
        ¬ lit "Sexy Elegant" <:+:
          pyReplace (lit "Sexy Elegant") (lit "Elegant and Sophisticated") s)
      ∧ (∀ j, 1 ≤ j → j ≤ 5 →
          (lit "Sexy Elegant").drop j <+:
            pyReplace (lit "Sexy Elegant") (lit "Elegant and Sophisticated") s →
          (lit "Sexy Elegant").drop j <+: s
            ∨ ((lit "Sexy ").drop j <+: s ∧ lit "Sexy Elegant" <+: s.drop (5 - j)))
      ∧ (∀ j, 6 ≤ j → j < 12 →
          (lit "Sexy Elegant").drop j <+:
            pyReplace (lit "Sexy Elegant") (lit "Elegant and Sophisticated") s →
          (lit "Sexy Elegant").drop j <+: s) by
    intro s; exact main s.length s (le_refl _)
  intro n
  induction n with
  | zero =>
    intro s hlen
    have hs : s = [] := List.eq_nil_of_length_eq_zero (Nat.le_zero.mp hlen)
    subst hs
    refine ⟨fun _ hinf => ?_, fun j _ _ hpref => ?_, fun j _ _ hpref => ?_⟩
    · rw [pyReplace_nil] at hinf
      exact absurd (inf_nil_eq hinf) (by decide)
    · rw [pyReplace_nil] at hpref
      exact Or.inl hpref
    · rwa [pyReplace_nil] at hpref
  | succ m ih =>
    intro s hlen
    cases s with
    | nil =>
      refine ⟨fun _ hinf => ?_, fun j _ _ hpref => ?_, fun j _ _ hpref => ?_⟩
      · rw [pyReplace_nil] at hinf
        exact absurd (inf_nil_eq hinf) (by decide)
      · rw [pyReplace_nil] at hpref
        exact Or.inl hpref
      · rwa [pyReplace_nil] at hpref
    | cons c rest =>
      rw [pyReplace_cons]
      by_cases hbr : lit "Sexy Elegant" ≠ [] ∧ lit "Sexy Elegant" <+: (c :: rest)
      · rw [if_pos hbr]
        obtain ⟨t, ht⟩ := hbr.2
        have hdrop : (c :: rest).drop (lit "Sexy Elegant").length = t := drop_of_pref ht
        rw [hdrop]
        have htlen : t.length ≤ m := by
          have := len_tail_of_pref hbr.1 ht
          simp at hlen
          omega
        refine ⟨?_, ?_, ?_⟩
        · intro hp2 hinf
          have hp2t : ¬ lit "Sexy Sexy Elegant" <:+: t := fun hx =>
            hp2 (by rw [← ht]; exact inf_append_right _ hx)
          rcases inf_append_cases hinf with h1 | h1 | ⟨a₁, b₁, ha1, _, hpe, hsuf, _⟩
          · exact absurd h1 (by decide)
          · exact (ih t htlen).1 hp2t h1
          · obtain ⟨i, hilt, hieq⟩ := suff_index ha1 hsuf
            have hnb : ∀ i, i < (lit "Elegant and Sophisticated").length →
                ¬ ((lit "Elegant and Sophisticated").drop i <+: lit "Sexy Elegant") := by
              decide
            exact hnb i hilt (by rw [hieq]; exact ⟨b₁, hpe.symm⟩)
        · intro j hj1 hj5 hpref
          rcases pref_append_cases hpref with h1 | ⟨d', hde, _⟩
          · interval_cases j
            · exact absurd h1 (by decide)
            · exact absurd h1 (by decide)
            · exact absurd h1 (by decide)
            · exact absurd h1 (by decide)
            · refine Or.inr ⟨?_, ?_⟩
              · have he : (lit "Sexy ").drop 5 = ([] : Str) := by decide
                rw [he]
                exact ⟨c :: rest, rfl⟩
              · show lit "Sexy Elegant" <+: (c :: rest).drop 0
                rw [List.drop_zero]
                exact ⟨t, ht⟩
          · have hl := congrArg List.length hde
            rw [List.length_drop, List.length_append] at hl
            have h12 : (lit "Sexy Elegant").length = 12 := by decide
            have h25 : (lit "Elegant and Sophisticated").length = 25 := by decide
            omega
        · intro j hj6 hj12 hpref
          rcases pref_append_cases hpref with h1 | ⟨d', hde, _⟩
          · interval_cases j
            · exact absurd h1 (by decide)
            · exact absurd h1 (by decide)
            · exact absurd h1 (by decide)
            · exact absurd h1 (by decide)
            · exact absurd h1 (by decide)
            · exact absurd h1 (by decide)
          · have hl := congrArg List.length hde
            rw [List.length_drop, List.length_append] at hl
            have h12 : (lit "Sexy Elegant").length = 12 := by decide
            have h25 : (lit "Elegant and Sophisticated").length = 25 := by decide
            omega
      · rw [if_neg hbr]
        have hnp : ¬ lit "Sexy Elegant" <+: (c :: rest) := fun h => hbr ⟨by decide, h⟩
        have hrlen : rest.length ≤ m := by simp at hlen; omega
        refine ⟨?_, ?_, ?_⟩
        · intro hp2 hinf
          have hp2r : ¬ lit "Sexy Sexy Elegant" <:+: rest := fun hx =>
            hp2 (inf_cons_intro c hx)
          rcases inf_cons_elim hinf with h1 | h1
          · rcases pref_cons_elim h1 with h2 | ⟨p', hpe, hpp⟩
            · exact absurd h2 (by decide)
            · obtain ⟨hch, htl⟩ := cons_eq_extract
                (show lit "Sexy Elegant" = 'S' :: (lit "Sexy Elegant").drop 1 from by decide)
                hpe
              rw [← htl] at hpp
              rcases (ih rest hrlen).2.1 1 (by omega) (by omega) hpp with hL | ⟨hRa, hRb⟩
              · exact hnp (pref_cons_of_head
                  (show lit "Sexy Elegant" = 'S' :: (lit "Sexy Elegant").drop 1 from by decide)
                  hch hL)
              · obtain ⟨u, hu⟩ := hRa
                have hu4 : rest.drop 4 = u := by
                  have hdp := drop_of_pref hu
                  rwa [show ((lit "Sexy ").drop 1).length = 4 from by decide] at hdp
                rw [show (5 : Nat) - 1 = 4 from rfl, hu4] at hRb
                obtain ⟨w, hw⟩ := hRb
                apply hp2
                apply inf_of_pref
                refine ⟨w, ?_⟩
                rw [show lit "Sexy Sexy Elegant"
                    = 'S' :: ((lit "Sexy ").drop 1 ++ lit "Sexy Elegant") from by decide]
                rw [hch, List.cons_append]
                congr 1
                rw [List.append_assoc, hw, hu]
          · exact (ih rest hrlen).1 hp2r h1
        · intro j hj1 hj5 hpref
          rcases pref_cons_elim hpref with h1 | ⟨d'', hde, hdp⟩
          · have hl := congrArg List.length h1
            rw [List.length_drop] at hl
            have h12 : (lit "Sexy Elegant").length = 12 := by decide
            simp at hl
            omega
          · interval_cases j
            · obtain ⟨hch, htl⟩ := cons_eq_extract
                (show (lit "Sexy Elegant").drop 1
                  = 'e' :: (lit "Sexy Elegant").drop 2 from by decide) hde
              rw [← htl] at hdp
              rcases (ih rest hrlen).2.1 2 (by omega) (by omega) hdp with hL | ⟨hRa, hRb⟩
              · exact Or.inl (pref_cons_of_head
                  (show (lit "Sexy Elegant").drop 1
                    = 'e' :: (lit "Sexy Elegant").drop 2 from by decide) hch hL)
              · refine Or.inr ⟨pref_cons_of_head
                  (show (lit "Sexy ").drop 1 = 'e' :: (lit "Sexy ").drop 2 from by decide)
                  hch hRa, ?_⟩
                exact hRb
            · obtain ⟨hch, htl⟩ := cons_eq_extract
                (show (lit "Sexy Elegant").drop 2
                  = 'x' :: (lit "Sexy Elegant").drop 3 from by decide) hde
              rw [← htl] at hdp
              rcases (ih rest hrlen).2.1 3 (by omega) (by omega) hdp with hL | ⟨hRa, hRb⟩
              · exact Or.inl (pref_cons_of_head
                  (show (lit "Sexy Elegant").drop 2
                    = 'x' :: (lit "Sexy Elegant").drop 3 from by decide) hch hL)
              · refine Or.inr ⟨pref_cons_of_head
                  (show (lit "Sexy ").drop 2 = 'x' :: (lit "Sexy ").drop 3 from by decide)
                  hch hRa, ?_⟩
                exact hRb
            · obtain ⟨hch, htl⟩ := cons_eq_extract
                (show (lit "Sexy Elegant").drop 3
                  = 'y' :: (lit "Sexy Elegant").drop 4 from by decide) hde
              rw [← htl] at hdp
              rcases (ih rest hrlen).2.1 4 (by omega) (by omega) hdp with hL | ⟨hRa, hRb⟩
              · exact Or.inl (pref_cons_of_head
                  (show (lit "Sexy Elegant").drop 3
                    = 'y' :: (lit "Sexy Elegant").drop 4 from by decide) hch hL)
              · refine Or.inr ⟨pref_cons_of_head
                  (show (lit "Sexy ").drop 3 = 'y' :: (lit "Sexy ").drop 4 from by decide)
                  hch hRa, ?_⟩
                exact hRb
            · obtain ⟨hch, htl⟩ := cons_eq_extract
                (show (lit "Sexy Elegant").drop 4
                  = ' ' :: (lit "Sexy Elegant").drop 5 from by decide) hde
              rw [← htl] at hdp
              rcases (ih rest hrlen).2.1 5 (by omega) (by omega) hdp with hL | ⟨hRa, hRb⟩
              · exact Or.inl (pref_cons_of_head
                  (show (lit "Sexy Elegant").drop 4
                    = ' ' :: (lit "Sexy Elegant").drop 5 from by decide) hch hL)
              · refine Or.inr ⟨pref_cons_of_head
                  (show (lit "Sexy ").drop 4 = ' ' :: (lit "Sexy ").drop 5 from by decide)
                  hch hRa, ?_⟩
                exact hRb
            · obtain ⟨hch, htl⟩ := cons_eq_extract
                (show (lit "Sexy Elegant").drop 5
                  = 'E' :: (lit "Sexy Elegant").drop 6 from by decide) hde
              rw [← htl] at hdp
              have h6 := (ih rest hrlen).2.2 6 (by omega) (by omega) hdp
              exact Or.inl (pref_cons_of_head
                (show (lit "Sexy Elegant").drop 5
                  = 'E' :: (lit "Sexy Elegant").drop 6 from by decide) hch h6)
        · intro j hj6 hj12 hpref
          rcases pref_cons_elim hpref with h1 | ⟨d'', hde, hdp⟩
          · have hl := congrArg List.length h1
            rw [List.length_drop] at hl
            have h12 : (lit "Sexy Elegant").length = 12 := by decide
            simp at hl
            omega
          · interval_cases j
            · obtain ⟨hch, htl⟩ := cons_eq_extract
                (show (lit "Sexy Elegant").drop 6
                  = 'l' :: (lit "Sexy Elegant").drop 7 from by decide) hde
              rw [← htl] at hdp
              have hnext := (ih rest hrlen).2.2 7 (by omega) (by omega) hdp
              exact pref_cons_of_head
                (show (lit "Sexy Elegant").drop 6
                  = 'l' :: (lit "Sexy Elegant").drop 7 from by decide) hch hnext
            · obtain ⟨hch, htl⟩ := cons_eq_extract
                (show (lit "Sexy Elegant").drop 7
                  = 'e' :: (lit "Sexy Elegant").drop 8 from by decide) hde
              rw [← htl] at hdp
              have hnext := (ih rest hrlen).2.2 8 (by omega) (by omega) hdp
              exact pref_cons_of_head
                (show (lit "Sexy Elegant").drop 7
                  = 'e' :: (lit "Sexy Elegant").drop 8 from by decide) hch hnext
            · obtain ⟨hch, htl⟩ := cons_eq_extract
                (show (lit "Sexy Elegant").drop 8
                  = 'g' :: (lit "Sexy Elegant").drop 9 from by decide) hde
              rw [← htl] at hdp
              have hnext := (ih rest hrlen).2.2 9 (by omega) (by omega) hdp
              exact pref_cons_of_head
                (show (lit "Sexy Elegant").drop 8
                  = 'g' :: (lit "Sexy Elegant").drop 9 from by decide) hch hnext
            · obtain ⟨hch, htl⟩ := cons_eq_extract
                (show (lit "Sexy Elegant").drop 9
                  = 'a' :: (lit "Sexy Elegant").drop 10 from by decide) hde
              rw [← htl] at hdp
              have hnext := (ih rest hrlen).2.2 10 (by omega) (by omega) hdp
              exact pref_cons_of_head
                (show (lit "Sexy Elegant").drop 9
                  = 'a' :: (lit "Sexy Elegant").drop 10 from by decide) hch hnext
            · obtain ⟨hch, htl⟩ := cons_eq_extract
                (show (lit "Sexy Elegant").drop 10
                  = 'n' :: (lit "Sexy Elegant").drop 11 from by decide) hde
              rw [← htl] at hdp
              have hnext := (ih rest hrlen).2.2 11 (by omega) (by omega) hdp
              exact pref_cons_of_head
                (show (lit "Sexy Elegant").drop 10
                  = 'n' :: (lit "Sexy Elegant").drop 11 from by decide) hch hnext
            · obtain ⟨hch, _⟩ := cons_eq_extract
                (show (lit "Sexy Elegant").drop 11
                  = 't' :: (lit "Sexy Elegant").drop 12 from by decide) hde
              exact pref_cons_of_head
                (show (lit "Sexy Elegant").drop 11
                  = 't' :: (lit "Sexy Elegant").drop 12 from by decide) hch ⟨rest, rfl⟩

lemma sanitize_no_keywords (s : Str) (hp2 : ¬ lit "Sexy Sexy Elegant" <:+: s) :
    ¬ lit "SEXY" <:+: _sanitize_value s
    ∧ ¬ lit "sexy" <:+: _sanitize_value s
    ∧ ¬ lit "Sexy Elegant" <:+: _sanitize_value s := by
  have e1 := elim (lit "SEXY") (lit "Sophisticated")
    (by decide) (by decide) (by decide) (by decide)
  have e2 := elim (lit "sexy") (lit "sophisticated")
    (by decide) (by decide) (by decide) (by decide)
  have pS2 := pres (lit "sexy") (lit "sophisticated") (lit "SEXY")
    (by decide) (by decide) (by decide) (by decide)
  have pS4 := pres (lit "Sexy Elegant") (lit "Elegant and Sophisticated") (lit "SEXY")
    (by decide) (by decide) (by decide) (by decide)
  have px4 := pres (lit "Sexy Elegant") (lit "Elegant and Sophisticated") (lit "sexy")
    (by decide) (by decide) (by decide) (by decide)
  have pP1 := pres (lit "SEXY") (lit "Sophisticated") (lit "Sexy Sexy Elegant")
    (by decide) (by decide) (by decide) (by decide)
  have pP2 := pres (lit "sexy") (lit "sophisticated") (lit "Sexy Sexy Elegant")
    (by decide) (by decide) (by decide) (by decide)
  set t1 := pyReplace (lit "SEXY") (lit "Sophisticated") s with ht1
  set t2 := pyReplace (lit "sexy") (lit "sophisticated") t1 with ht2
  have hS1 : ¬ lit "SEXY" <:+: t1 := (e1 s).1
  have hS2 : ¬ lit "SEXY" <:+: t2 := (pS2 t1).1 hS1
  have hx2 : ¬ lit "sexy" <:+: t2 := (e2 t1).1
  have hP21 : ¬ lit "Sexy Sexy Elegant" <:+: t1 := (pP1 s).1 hp2
  have hP22 : ¬ lit "Sexy Sexy Elegant" <:+: t2 := (pP2 t1).1 hP21
  have ht3 : pyReplace (lit "SEXY_ELEGANT") (lit "Elegant and Sophisticated") t2 = t2 := by
    apply pyReplace_eq_self
    intro h
    exact hS2 ((inf_of_pref (show lit "SEXY" <+: lit "SEXY_ELEGANT" from by decide)).trans h)
  have hO4 := (rule4 t2).1 hP22
  have hS4 := (pS4 t2).1 hS2
  have hx4 := (px4 t2).1 hx2
  show (¬ lit "SEXY" <:+:
      pyReplace (lit "Sexy Elegant") (lit "Elegant and Sophisticated")
        (pyReplace (lit "SEXY_ELEGANT") (lit "Elegant and Sophisticated") t2))
    ∧ (¬ lit "sexy" <:+:
      pyReplace (lit "Sexy Elegant") (lit "Elegant and Sophisticated")
        (pyReplace (lit "SEXY_ELEGANT") (lit "Elegant and Sophisticated") t2))
    ∧ (¬ lit "Sexy Elegant" <:+:
      pyReplace (lit "Sexy Elegant") (lit "Elegant and Sophisticated")
        (pyReplace (lit "SEXY_ELEGANT") (lit "Elegant and Sophisticated") t2))
  rw [ht3]
  exact ⟨hS4, hx4, hO4⟩

lemma sanitize_fixed {t : Str} (hS : ¬ lit "SEXY" <:+: t) (hx : ¬ lit "sexy" <:+: t)
    (hO : ¬ lit "Sexy Elegant" <:+: t) : _sanitize_value t = t := by
  have hSE : ¬ lit "SEXY_ELEGANT" <:+: t := fun hinf =>
    hS ((inf_of_pref (show lit "SEXY" <+: lit "SEXY_ELEGANT" from by decide)).trans hinf)
  show pyReplace (lit "Sexy Elegant") (lit "Elegant and Sophisticated")
      (pyReplace (lit "SEXY_ELEGANT") (lit "Elegant and Sophisticated")
        (pyReplace (lit "sexy") (lit "sophisticated")
          (pyReplace (lit "SEXY") (lit "Sophisticated") t))) = t
  rw [pyReplace_eq_self _ _ t hS, pyReplace_eq_self _ _ t hx,
    pyReplace_eq_self _ _ t hSE, pyReplace_eq_self _ _ t hO]

/-- C7 counterexample: the substitution pass is not idempotent on every
input — on `Sexy Sexy Elegant` one pass yields
`Sexy Elegant and Sophisticated`, which the next pass rewrites again. -/
theorem spec_c7_counterexample :
    _sanitize_value (_sanitize_value (lit "Sexy Sexy Elegant"))
      ≠ _sanitize_value (lit "Sexy Sexy Elegant") := by
  decide

/-- C7 amended: the substitution pass is idempotent on every input string
that does not contain `Sexy Sexy Elegant` as a substring (an overlapped
occurrence whose replacement recreates the `Sexy Elegant` key is the only
source of non-idempotence). -/
theorem spec_c7_amended (s : Str) (h : ¬ lit "Sexy Sexy Elegant" <:+: s) :
    _sanitize_value (_sanitize_value s) = _sanitize_value s := by
  obtain ⟨hS, hx, hO⟩ := sanitize_no_keywords s h
  exact sanitize_fixed hS hx hO

/-- Witness for C7 at a string that does contain sanitizable keywords. -/
theorem spec_c7_witness :
    ¬ lit "Sexy Sexy Elegant" <:+: lit "a sexy SEXY dress"
    ∧ _sanitize_value (_sanitize_value (lit "a sexy SEXY dress"))
        = _sanitize_value (lit "a sexy SEXY dress") :=
  ⟨by decide, spec_c7_amended (lit "a sexy SEXY dress") (by decide)⟩
